import Mathlib

/-!
Verification of the hash-rs utility against its specification.

The development shallowly embeds the three source files of the repository:
src/src/wildcard.rs (wildcard pattern expansion), src/src/cli.rs (command
line parsing) and src/tests/simd_verification.rs (benchmark harness helpers).
Parts of the program the repository does not ship under src/ (the error type
from error.rs, the digest engine and the verification engine) are modelled
from the specification, as marked in the respective doc comments.

Strings are embedded as Lean String values; character level operations are
performed on String.toList so that all definitions are executable and
decidable. Byte buffers are embedded as List Nat with entries below 256.
Filesystem and external crates (glob, clap) enter as explicit functional
parameters, so every function stays pure.
-/

namespace HashRs

/-- Modelled from the spec: the error taxonomy of section 7. The enum
HashUtilityError lives in src/error.rs, which is not under src/; only its
variants named by the spec are modelled. -/
inductive HashUtilityError where
  | InvalidArguments (message : String)
  | IoError (message : String)
  | ParseError (line : Nat) (message : String)
  | ModeMismatch (message : String)
deriving DecidableEq

/-- Embeds contains_wildcard from src/src/wildcard.rs lines 67 to 69:
true when the string holds one of the characters star, question mark or
opening square bracket. -/
def contains_wildcard (s : String) : Bool :=
  s.toList.contains '*' || s.toList.contains '?' || s.toList.contains '['

/-- Lexicographic comparison of character lists by code point, the order in
which Rust sorts the matched paths. -/
def chars_le : List Char → List Char → Bool
  | [], _ => true
  | _ :: _, [] => false
  | a :: as, b :: bs =>
    if a.toNat < b.toNat then true
    else if b.toNat < a.toNat then false
    else chars_le as bs

/-- Embeds the ascending PathBuf order used by matches.sort() in
src/src/wildcard.rs line 61, as byte-lexicographic order on the path
string. -/
def path_le (a b : String) : Bool :=
  chars_le a.toList b.toList

/-- Embeds the entry loop of expand_pattern (src/src/wildcard.rs lines 35 to
44): each Ok entry is pushed onto the match list, the first Err entry aborts
with an InvalidArguments error naming the pattern. -/
def collect_matches (pattern : String) :
    List (Except String String) → Except HashUtilityError (List String)
  | [] => .ok []
  | .ok path :: rest =>
    (collect_matches pattern rest).map (fun ps => path :: ps)
  | .error e :: _ =>
    .error (.InvalidArguments
      ("Error reading glob pattern \x27" ++ pattern ++ "\x27: " ++ e))

/-- Embeds expand_pattern from src/src/wildcard.rs lines 23 to 64. The glob
crate and the filesystem are abstracted as the functional parameter glob,
mapping a pattern either to a pattern-compilation error or to the list of
walked entries, each entry being a read error or a matched path. -/
def expand_pattern
    (glob : String → Except String (List (Except String String)))
    (pattern : String) : Except HashUtilityError (List String) :=
  if !contains_wildcard pattern then
    .ok [pattern]
  else
    match glob pattern with
    | .error e =>
      .error (.InvalidArguments
        ("Invalid glob pattern \x27" ++ pattern ++ "\x27: " ++ e))
    | .ok entries =>
      match collect_matches pattern entries with
      | .error err => .error err
      | .ok found =>
        if found.isEmpty then
          .error (.InvalidArguments
            ("No files match pattern \x27" ++ pattern ++ "\x27"))
        else
          .ok (found.mergeSort path_le)

/-- Embeds the Command enum of src/src/cli.rs lines 29 to 107. -/
inductive Command where
  | Hash (file : String) (algorithms : List String)
      (output : Option String) (fast : Bool)
  | Scan (directory : String) (algorithm : String) (output : String)
      (parallel : Bool) (fast : Bool)
  | Verify (database : String) (directory : String)
  | Benchmark (size_mb : Nat)
  | List
deriving DecidableEq

/-- Embeds the Cli struct of src/src/cli.rs lines 22 to 25. -/
structure Cli where
  command : Command
deriving DecidableEq

/-- Accumulator for the hash subcommand flags while parsing. -/
structure HashArgs where
  file : Option String := none
  algorithms : List String := []
  output : Option String := none
  fast : Bool := false
deriving DecidableEq

/-- Accumulator for the scan subcommand flags while parsing. -/
structure ScanArgs where
  directory : Option String := none
  algorithm : Option String := none
  output : Option String := none
  parallel : Bool := false
  fast : Bool := false
deriving DecidableEq

/-- Accumulator for the verify subcommand flags while parsing. -/
structure VerifyArgs where
  database : Option String := none
  directory : Option String := none
deriving DecidableEq

/-- Accumulator for the benchmark subcommand flags while parsing. -/
structure BenchmarkArgs where
  size_mb : Option Nat := none
deriving DecidableEq

/-- Modelled from the spec: flag loop of the clap-derived parser for the
hash subcommand declared in src/src/cli.rs lines 34 to 50 (the derive
expansion is not under src/). Flags -f and --file, -a and --algorithm
(repeatable, appended), -o and --output each take a value; -F and --fast is
boolean; anything else is an error. -/
def parse_hash_args : List String → HashArgs → Except String HashArgs
  | [], acc => .ok acc
  | arg :: rest, acc =>
    if arg = "-F" ∨ arg = "--fast" then
      parse_hash_args rest { acc with fast := true }
    else if arg = "-f" ∨ arg = "--file" then
      match rest with
      | [] => .error ("a value is required for \x27" ++ arg ++ "\x27")
      | v :: rest2 => parse_hash_args rest2 { acc with file := some v }
    else if arg = "-a" ∨ arg = "--algorithm" then
      match rest with
      | [] => .error ("a value is required for \x27" ++ arg ++ "\x27")
      | v :: rest2 =>
        parse_hash_args rest2 { acc with algorithms := acc.algorithms ++ [v] }
    else if arg = "-o" ∨ arg = "--output" then
      match rest with
      | [] => .error ("a value is required for \x27" ++ arg ++ "\x27")
      | v :: rest2 => parse_hash_args rest2 { acc with output := some v }
    else
      .error ("unexpected argument \x27" ++ arg ++ "\x27")

/-- Modelled from the spec: flag loop of the clap-derived parser for the
scan subcommand declared in src/src/cli.rs lines 56 to 76 (the derive
expansion is not under src/). -/
def parse_scan_args : List String → ScanArgs → Except String ScanArgs
  | [], acc => .ok acc
  | arg :: rest, acc =>
    if arg = "-p" ∨ arg = "--parallel" then
      parse_scan_args rest { acc with parallel := true }
    else if arg = "-F" ∨ arg = "--fast" then
      parse_scan_args rest { acc with fast := true }
    else if arg = "-d" ∨ arg = "--directory" then
      match rest with
      | [] => .error ("a value is required for \x27" ++ arg ++ "\x27")
      | v :: rest2 => parse_scan_args rest2 { acc with directory := some v }
    else if arg = "-a" ∨ arg = "--algorithm" then
      match rest with
      | [] => .error ("a value is required for \x27" ++ arg ++ "\x27")
      | v :: rest2 => parse_scan_args rest2 { acc with algorithm := some v }
    else if arg = "-o" ∨ arg = "--output" then
      match rest with
      | [] => .error ("a value is required for \x27" ++ arg ++ "\x27")
      | v :: rest2 => parse_scan_args rest2 { acc with output := some v }
    else
      .error ("unexpected argument \x27" ++ arg ++ "\x27")

/-- Modelled from the spec: flag loop of the clap-derived parser for the
verify subcommand declared in src/src/cli.rs lines 82 to 90 (the derive
expansion is not under src/). -/
def parse_verify_args : List String → VerifyArgs → Except String VerifyArgs
  | [], acc => .ok acc
  | arg :: rest, acc =>
    if arg = "-b" ∨ arg = "--database" then
      match rest with
      | [] => .error ("a value is required for \x27" ++ arg ++ "\x27")
      | v :: rest2 => parse_verify_args rest2 { acc with database := some v }
    else if arg = "-d" ∨ arg = "--directory" then
      match rest with
      | [] => .error ("a value is required for \x27" ++ arg ++ "\x27")
      | v :: rest2 => parse_verify_args rest2 { acc with directory := some v }
    else
      .error ("unexpected argument \x27" ++ arg ++ "\x27")

/-- Modelled from the spec: flag loop of the clap-derived parser for the
benchmark subcommand declared in src/src/cli.rs lines 96 to 100 (the derive
expansion is not under src/). -/
def parse_benchmark_args :
    List String → BenchmarkArgs → Except String BenchmarkArgs
  | [], acc => .ok acc
  | arg :: rest, acc =>
    if arg = "-s" ∨ arg = "--size" then
      match rest with
      | [] => .error ("a value is required for \x27" ++ arg ++ "\x27")
      | v :: rest2 =>
        match v.toNat? with
        | some n => parse_benchmark_args rest2 { acc with size_mb := some n }
        | none => .error ("invalid value \x27" ++ v ++ "\x27 for \x27" ++ arg ++ "\x27")
    else
      .error ("unexpected argument \x27" ++ arg ++ "\x27")

/-- Finishes the hash subcommand: --file is required, the algorithm list
defaults to sha256 when no -a flag was given (default_value attribute in
src/src/cli.rs line 40). -/
def finish_hash (acc : HashArgs) : Except String Command :=
  match acc.file with
  | none => .error "the following required arguments were not provided: --file"
  | some f =>
    .ok (.Hash f
      (if acc.algorithms.isEmpty then ["sha256"] else acc.algorithms)
      acc.output acc.fast)

/-- Finishes the scan subcommand: --directory and --output are required, the
algorithm defaults to sha256 (default_value attribute in src/src/cli.rs
line 62). -/
def finish_scan (acc : ScanArgs) : Except String Command :=
  match acc.directory, acc.output with
  | some d, some o =>
    .ok (.Scan d (acc.algorithm.getD "sha256") o acc.parallel acc.fast)
  | _, _ => .error "the following required arguments were not provided"

/-- Finishes the verify subcommand: --database and --directory are
required. -/
def finish_verify (acc : VerifyArgs) : Except String Command :=
  match acc.database, acc.directory with
  | some b, some d => .ok (.Verify b d)
  | _, _ => .error "the following required arguments were not provided"

/-- Finishes the benchmark subcommand: --size defaults to 100 (default_value
attribute in src/src/cli.rs line 98). -/
def finish_benchmark (acc : BenchmarkArgs) : Except String Command :=
  .ok (.Benchmark (acc.size_mb.getD 100))

/-- Modelled from the spec: the clap-derived subcommand dispatch generated
from the Cli and Command declarations in src/src/cli.rs (the derive
expansion is not under src/). -/
def parse_argv : List String → Except String Cli
  | [] => .error "a subcommand is required"
  | cmd :: rest =>
    if cmd = "hash" then
      (parse_hash_args rest {}).bind (fun acc => (finish_hash acc).map Cli.mk)
    else if cmd = "scan" then
      (parse_scan_args rest {}).bind (fun acc => (finish_scan acc).map Cli.mk)
    else if cmd = "verify" then
      (parse_verify_args rest {}).bind (fun acc => (finish_verify acc).map Cli.mk)
    else if cmd = "benchmark" then
      (parse_benchmark_args rest {}).bind (fun acc => (finish_benchmark acc).map Cli.mk)
    else if cmd = "list" then
      match rest with
      | [] => .ok ⟨.List⟩
      | a :: _ => .error ("unexpected argument \x27" ++ a ++ "\x27")
    else
      .error ("unrecognized subcommand \x27" ++ cmd ++ "\x27")

/-- Kinds of clap errors distinguished by parse_args in src/src/cli.rs lines
122 and 123; every kind other than DisplayHelp and DisplayVersion is an
actual parse failure. -/
inductive ClapErrorKind where
  | DisplayHelp
  | DisplayVersion
  | InvalidValue
  | UnknownArgument
  | MissingRequiredArgument
  | InvalidSubcommand
deriving DecidableEq

/-- A clap error as seen by parse_args: its kind and its rendered message
(the Rust Display output used at src/src/cli.rs line 131). -/
structure ClapError where
  kind : ClapErrorKind
  rendered : String
deriving DecidableEq

/-- Observable outcome of parse_args: a parsed Cli, a successful process
exit after printing help or version text, or a returned error. -/
inductive ParseArgsOutcome where
  | ok (cli : Cli)
  | helpOrVersionExit (rendered : String)
  | err (e : HashUtilityError)
deriving DecidableEq

/-- Embeds parse_args from src/src/cli.rs lines 116 to 135. The result of
Cli::try_parse is passed in as the explicit argument r; a DisplayHelp or
DisplayVersion error prints and exits with status zero, every other error is
wrapped as InvalidArguments carrying the rendered clap message. -/
def parse_args (r : Except ClapError Cli) : ParseArgsOutcome :=
  match r with
  | .ok cli => .ok cli
  | .error e =>
    if e.kind = .DisplayHelp ∨ e.kind = .DisplayVersion then
      .helpOrVersionExit e.rendered
    else
      .err (.InvalidArguments e.rendered)

/-- The 100 MB sampling window size of fast mode, in bytes. -/
def SAMPLE_SIZE : Nat := 100 * 1024 * 1024

/-- Digest mode of the Digest Engine: full read or sampled fast mode. -/
inductive Mode where
  | Full
  | Fast
deriving DecidableEq

/-- Modelled from the spec: the fast mode sampling policy of the Digest
Engine (section 4.2), whose implementation is not under src/. For inputs of
at most SAMPLE_SIZE bytes the whole input is the sample; larger inputs are
sampled as the first window, a middle window centered on the midpoint, and
the last window, in that order, with boundaries clamped (the middle window
shrinks) so the segments never overlap and never exceed the input size. -/
def fastSample (data : List Nat) : List Nat :=
  let n := data.length
  if n ≤ SAMPLE_SIZE then data
  else
    let endLo := max SAMPLE_SIZE (n - SAMPLE_SIZE)
    let midLo := min (max SAMPLE_SIZE (n / 2 - SAMPLE_SIZE / 2)) endLo
    let midHi := min (midLo + SAMPLE_SIZE) endLo
    data.take SAMPLE_SIZE ++ (data.drop midLo).take (midHi - midLo)
      ++ data.drop endLo

/-- Modelled from the spec: the Digest Engine contract (section 4.2), whose
implementation is not under src/. Each requested algorithm is a black-box
hash function; full mode feeds it the whole input, fast mode feeds it the
sampled bytes. -/
def digest (hashers : List (List Nat → List Nat)) (data : List Nat)
    (mode : Mode) : List (List Nat) :=
  match mode with
  | .Full => hashers.map (fun h => h data)
  | .Fast => hashers.map (fun h => h (fastSample data))

/-- The four path sets of a verification run (section 3 of the spec). -/
structure VerificationReport where
  unchanged : List String
  modified : List String
  missing : List String
  new : List String

/-- Modelled from the spec: the Verification Engine (section 4.5), whose
implementation is not under src/. The database and the freshly scanned
directory are association lists from relative path to digest string; every
database path is classified as unchanged, modified or missing by looking the
path up in the directory, and every directory path absent from the database
is classified as new. -/
def verify (db disk : List (String × String)) : VerificationReport :=
  { unchanged :=
      (db.filter (fun e => disk.lookup e.1 == some e.2)).map Prod.fst
  , modified :=
      (db.filter (fun e =>
        (disk.lookup e.1).isSome && (disk.lookup e.1 != some e.2))).map Prod.fst
  , missing :=
      (db.filter (fun e => (disk.lookup e.1).isNone)).map Prod.fst
  , new :=
      (disk.filter (fun e => (db.lookup e.1).isNone)).map Prod.fst }

/-- Embeds TEST_DATA_SIZE from src/tests/simd_verification.rs line 8. -/
def TEST_DATA_SIZE : Nat := 1024 * 1024

/-- Embeds the 45 byte repeating pattern of generate_test_data
(src/tests/simd_verification.rs line 12) as its byte values. -/
def test_pattern : List Nat :=
  "The quick brown fox jumps over the lazy dog. ".toList.map Char.toNat

/-- Embeds the fill loop of generate_test_data
(src/tests/simd_verification.rs lines 13 to 22): while bytes remain to be
produced, append the whole pattern if it fits, otherwise append the needed
prefix of the pattern. -/
def gen_fill (remaining : Nat) : List Nat :=
  if remaining = 0 then []
  else if test_pattern.length ≤ remaining then
    test_pattern ++ gen_fill (remaining - test_pattern.length)
  else
    test_pattern.take remaining
termination_by remaining
decreasing_by
  have h45 : test_pattern.length = 45 := by decide
  omega

/-- Embeds generate_test_data from src/tests/simd_verification.rs lines 11
to 23. -/
def generate_test_data (size : Nat) : List Nat :=
  gen_fill size

/-- The spec-side description of the synthetic buffer: the fixed pattern
repeated and truncated to the requested length. Stated from the spec words
for comparison with generate_test_data. -/
def repeated_truncated (block : List Nat) (n : Nat) : List Nat :=
  ((List.replicate n block).flatten).take n

/-- Embeds measure_throughput from src/tests/simd_verification.rs lines 26
to 42. Wall-clock time is not observable in a pure embedding, so the
elapsed seconds reported by Instant are passed in as a rational parameter;
the hash function is applied and its result discarded exactly as in the
source, and the returned value is input megabytes divided by elapsed
seconds, guarded to 0 when the elapsed time is not positive. -/
def measure_throughput (hash_fn : List Nat → List Nat) (data : List Nat)
    (elapsedSeconds : ℚ) : ℚ :=
  let _ := hash_fn data
  let mb : ℚ := (data.length : ℚ) / (1024 * 1024)
  if 0 < elapsedSeconds then mb / elapsedSeconds else 0

/-- Embeds the buffer usage of test_performance_comparison
(src/tests/simd_verification.rs lines 277 to 315): the synthetic buffer is
generated once and the very same buffer is handed to the BLAKE3 timing and
to the SHA-256 timing. The pair holds the two buffers passed to the two
measure_throughput calls. -/
def test_performance_inputs : List Nat × List Nat :=
  let test_data := generate_test_data TEST_DATA_SIZE
  (test_data, test_data)

/-- A glob collaborator in whose filesystem no pattern matches anything. -/
def glob_empty : String → Except String (List (Except String String)) :=
  fun _ => .ok []

/-- A glob collaborator that rejects every pattern as malformed. -/
def glob_fail : String → Except String (List (Except String String)) :=
  fun _ => .error "unclosed character class"

/-- A glob collaborator whose single matched entry fails to be read. -/
def glob_read_fail : String → Except String (List (Except String String)) :=
  fun _ => .ok [.error "permission denied"]

/-- Concrete database for the verification witness. -/
def db_example : List (String × String) :=
  [("a.txt", "d1"), ("b.txt", "d2"), ("c.txt", "d3")]

/-- Concrete directory scan for the verification witness: a.txt unchanged,
b.txt modified, c.txt missing, d.txt new. -/
def disk_example : List (String × String) :=
  [("a.txt", "d1"), ("b.txt", "x2"), ("d.txt", "d4")]

/-! Theorems. -/

/-- Transitivity of the byte-lexicographic comparison chars_le. -/
theorem chars_le_trans : ∀ l1 l2 l3 : List Char,
    chars_le l1 l2 = true → chars_le l2 l3 = true → chars_le l1 l3 = true := by
  intro l1
  induction l1 with
  | nil => intro l2 l3 _ _; rfl
  | cons a as ih =>
    intro l2 l3 h1 h2
    cases l2 with
    | nil => simp [chars_le] at h1
    | cons b bs =>
      cases l3 with
      | nil => simp [chars_le] at h2
      | cons c cs =>
        simp only [chars_le] at h1 h2 ⊢
        split_ifs at h1 h2 ⊢ <;>
          first
            | rfl
            | exact absurd h1 (by decide)
            | exact absurd h2 (by decide)
            | omega
            | exact ih bs cs h1 h2

/-- Totality of the byte-lexicographic comparison chars_le. -/
theorem chars_le_total : ∀ l1 l2 : List Char,
    (chars_le l1 l2 || chars_le l2 l1) = true := by
  intro l1
  induction l1 with
  | nil => intro l2; rfl
  | cons a as ih =>
    intro l2
    cases l2 with
    | nil => rfl
    | cons b bs =>
      simp only [chars_le]
      by_cases hab : a.toNat < b.toNat
      · simp [hab]
      · by_cases hba : b.toNat < a.toNat
        · simp [hab, hba]
        · simp only [if_neg hab, if_neg hba]
          exact ih bs

/-- Transitivity of the path order used for sorting matches. -/
theorem path_le_trans (a b c : String) :
    path_le a b = true → path_le b c = true → path_le a c = true :=
  chars_le_trans a.toList b.toList c.toList

/-- Totality of the path order used for sorting matches. -/
theorem path_le_total (a b : String) :
    (path_le a b || path_le b a) = true :=
  chars_le_total a.toList b.toList

/-- C2: whenever expand_pattern succeeds, the returned path list is
non-empty and sorted ascending in the byte-lexicographic path order; an
empty list is never a successful result. -/
theorem c2_expand_pattern_sorted_nonempty
    (glob : String → Except String (List (Except String String)))
    (pattern : String) (paths : List String)
    (h : expand_pattern glob pattern = .ok paths) :
    paths ≠ [] ∧ List.Sorted (fun a b => path_le a b = true) paths := by
  by_cases hw : contains_wildcard pattern
  · cases hg : glob pattern with
    | error e => simp [expand_pattern, hw, hg] at h
    | ok entries =>
      cases hc : collect_matches pattern entries with
      | error err => simp [expand_pattern, hw, hg, hc] at h
      | ok found =>
        by_cases he : found.isEmpty
        · simp [expand_pattern, hw, hg, hc, he] at h
        · have he2 : found.isEmpty = false := by simpa using he
          simp [expand_pattern, hw, hg, hc, he2] at h
          have hp : paths = found.mergeSort path_le := h.symm
          subst hp
          constructor
          · intro hnil
            have hlen := (List.mergeSort_perm found path_le).length_eq
            rw [hnil] at hlen
            have hfound : found = [] := List.length_eq_zero.mp hlen.symm
            rw [hfound] at he
            exact he rfl
          · exact List.sorted_mergeSort
              (fun a b c => path_le_trans a b c)
              (fun a b => path_le_total a b) found
  · have hw2 : contains_wildcard pattern = false := by
      simpa using hw
    simp [expand_pattern, hw2] at h
    have hp : paths = [pattern] := h.symm
    subst hp
    exact ⟨by simp, by simp⟩

/-- C2 witness: a concrete successful expansion, non-empty and sorted. -/
theorem c2_witness :
    (["file.txt"] : List String) ≠ [] ∧
    List.Sorted (fun a b => path_le a b = true) ["file.txt"] :=
  c2_expand_pattern_sorted_nonempty glob_empty "file.txt" ["file.txt"] rfl

/-- C1 counterexample: the pattern nonexistent.txt holds no wildcard
character, so expand_pattern returns it as a singleton success without
consulting the filesystem, even though the glob collaborator (first
conjunct) confirms that the pattern matches no file on disk. The claim
demands a no-matches InvalidArguments error for every such pattern, so it
fails here. -/
theorem c1_counterexample :
    glob_empty "nonexistent.txt" = .ok [] ∧
    expand_pattern glob_empty "nonexistent.txt" = .ok ["nonexistent.txt"] :=
  ⟨rfl, rfl⟩

/-- C1 amended: for every pattern that holds a wildcard character and
matches no files on disk, expand_pattern returns the explicit no-matches
InvalidArguments error rather than a successful result. -/
theorem c1_amended_no_matches
    (glob : String → Except String (List (Except String String)))
    (pattern : String)
    (hw : contains_wildcard pattern = true)
    (hg : glob pattern = .ok []) :
    expand_pattern glob pattern =
      .error (.InvalidArguments
        ("No files match pattern \x27" ++ pattern ++ "\x27")) := by
  unfold expand_pattern
  rw [if_neg (by simp [hw]), hg]
  rfl

/-- C1 amended witness: the wildcard pattern star dot txt over an empty
filesystem yields the no-matches error. -/
theorem c1_amended_witness :
    contains_wildcard "*.txt" = true ∧
    expand_pattern glob_empty "*.txt" =
      .error (.InvalidArguments
        ("No files match pattern \x27" ++ "*.txt" ++ "\x27")) :=
  ⟨by decide, c1_amended_no_matches glob_empty "*.txt" (by decide) rfl⟩

/-- Helper: the entry loop aborts at the first read failure with the
InvalidArguments error naming the pattern, whatever entries were already
collected. -/
theorem collect_matches_error (pattern e : String) (good : List String)
    (rest : List (Except String String)) :
    collect_matches pattern (good.map Except.ok ++ Except.error e :: rest) =
      .error (.InvalidArguments
        ("Error reading glob pattern \x27" ++ pattern ++ "\x27: " ++ e)) := by
  induction good with
  | nil => rfl
  | cons g gs ih => simp [collect_matches, ih, Except.map]

/-- C8: for a wildcard pattern, a malformed-pattern error from the glob
crate and a read failure of a matched entry both turn into an
InvalidArguments error whose message embeds the offending pattern between
the fixed message pieces, and no partial path list is ever returned. -/
theorem c8_expand_pattern_glob_errors
    (glob : String → Except String (List (Except String String)))
    (pattern : String) (hw : contains_wildcard pattern = true) :
    (∀ e, glob pattern = .error e →
      expand_pattern glob pattern =
        .error (.InvalidArguments
          ("Invalid glob pattern \x27" ++ pattern ++ "\x27: " ++ e)))
  ∧ (∀ (good : List String) (e : String)
        (rest : List (Except String String)),
      glob pattern = .ok (good.map Except.ok ++ Except.error e :: rest) →
      expand_pattern glob pattern =
        .error (.InvalidArguments
          ("Error reading glob pattern \x27" ++ pattern ++ "\x27: " ++ e))) := by
  constructor
  · intro e hg
    unfold expand_pattern
    rw [if_neg (by simp [hw]), hg]
  · intro good e rest hg
    simp [expand_pattern, hw, hg, collect_matches_error]

/-- C8 witness: a rejected pattern and a failed entry read on concrete glob
collaborators. -/
theorem c8_witness :
    expand_pattern glob_fail "*.txt" =
      .error (.InvalidArguments
        ("Invalid glob pattern \x27" ++ "*.txt" ++ "\x27: "
          ++ "unclosed character class")) ∧
    expand_pattern glob_read_fail "*.txt" =
      .error (.InvalidArguments
        ("Error reading glob pattern \x27" ++ "*.txt" ++ "\x27: "
          ++ "permission denied")) :=
  ⟨(c8_expand_pattern_glob_errors glob_fail "*.txt" (by decide)).1
      "unclosed character class" rfl,
   (c8_expand_pattern_glob_errors glob_read_fail "*.txt" (by decide)).2
      [] "permission denied" [] rfl⟩

/-- C9: a pattern without the characters star, question mark and opening
bracket is returned as a singleton success for every glob collaborator, so
the filesystem is never consulted and a plain path naming a nonexistent
file still succeeds. -/
theorem c9_plain_path
    (pattern : String) (hw : contains_wildcard pattern = false)
    (glob : String → Except String (List (Except String String))) :
    expand_pattern glob pattern = .ok [pattern] := by
  unfold expand_pattern
  rw [if_pos (by simp [hw])]

/-- C9 witness: a plain path naming no existing file expands to itself. -/
theorem c9_witness :
    contains_wildcard "missing-file.txt" = false ∧
    expand_pattern glob_empty "missing-file.txt" = .ok ["missing-file.txt"] :=
  ⟨by decide, c9_plain_path "missing-file.txt" (by decide) glob_empty⟩

/-- C3: for every input of at most SAMPLE_SIZE bytes, the fast mode digest
equals the full mode digest for every list of requested algorithms, because
the sampling degenerates to the whole input. -/
theorem c3_fast_eq_full_small (hashers : List (List Nat → List Nat))
    (data : List Nat) (h : data.length ≤ SAMPLE_SIZE) :
    digest hashers data Mode.Fast = digest hashers data Mode.Full := by
  simp [digest, fastSample, h]

/-- C3 witness: a concrete three byte input digested by the identity
accumulator gives the same result in both modes. -/
theorem c3_witness :
    digest [fun l => l] [0, 1, 2] Mode.Fast
      = digest [fun l => l] [0, 1, 2] Mode.Full :=
  c3_fast_eq_full_small [fun l => l] [0, 1, 2] (by decide)

/-- C5: the throughput computation is total and guarded: a non-positive
elapsed time yields the sentinel value 0 instead of a division, and a
positive elapsed time yields the genuine quotient of input megabytes by
elapsed seconds. -/
theorem c5_measure_throughput_guarded (hash_fn : List Nat → List Nat)
    (data : List Nat) (s : ℚ) :
    (s ≤ 0 → measure_throughput hash_fn data s = 0) ∧
    (0 < s → measure_throughput hash_fn data s * s
      = (data.length : ℚ) / (1024 * 1024)) := by
  constructor
  · intro hs
    simp [measure_throughput, not_lt.mpr hs]
  · intro hs
    simp only [measure_throughput, if_pos hs]
    exact div_mul_cancel₀ _ (ne_of_gt hs)

/-- C5 witness: zero elapsed time reports the sentinel 0, and one second
reports one megabyte input as its exact quotient. -/
theorem c5_witness :
    (measure_throughput (fun l => l) [0] 0 = 0) ∧
    (measure_throughput (fun l => l) [0] 1 * 1
      = (([0] : List Nat).length : ℚ) / (1024 * 1024)) :=
  ⟨(c5_measure_throughput_guarded (fun l => l) [0] 0).1 le_rfl,
   (c5_measure_throughput_guarded (fun l => l) [0] 1).2 one_pos⟩

/-- Helper: the repeating pattern is 45 bytes long. -/
theorem test_pattern_length : test_pattern.length = 45 := by decide

/-- Helper: taking at most P.length * a bytes from the flattening of
replicated copies of P ignores every copy beyond the first a. -/
theorem take_flatten_replicate (P : List Nat) :
    ∀ (t a k : Nat), k ≤ P.length * a →
      ((List.replicate (a + t) P).flatten).take k
        = ((List.replicate a P).flatten).take k := by
  intro t
  induction t with
  | zero => intro a k _; rfl
  | succ t ih =>
    intro a k hk
    have h1 : a + (t + 1) = (a + t) + 1 := by omega
    rw [h1, List.replicate_succ', List.flatten_append]
    rw [List.take_append_of_le_length]
    · exact ih a k hk
    · have hlen : ((List.replicate (a + t) P).flatten).length
          = (a + t) * P.length := by
        simp [List.length_flatten, List.map_replicate, List.sum_replicate,
          smul_eq_mul]
      rw [hlen]
      calc k ≤ P.length * a := hk
        _ ≤ P.length * (a + t) := Nat.mul_le_mul_left _ (by omega)
        _ = (a + t) * P.length := Nat.mul_comm _ _

/-- Helper: the fill loop produces exactly the repeating pattern truncated
to the requested length. -/
theorem gen_fill_eq (r : Nat) :
    gen_fill r = ((List.replicate r test_pattern).flatten).take r := by
  induction r using Nat.strong_induction_on with
  | _ r ih =>
    rw [gen_fill]
    by_cases h0 : r = 0
    · subst h0; simp
    · have hP := test_pattern_length
      have hrep : List.replicate r test_pattern
          = test_pattern :: List.replicate (r - 1) test_pattern := by
        conv_lhs => rw [show r = (r - 1) + 1 by omega]
        rw [List.replicate_succ]
      by_cases h45 : test_pattern.length ≤ r
      · rw [if_neg h0, if_pos h45]
        rw [ih (r - test_pattern.length) (by omega)]
        rw [hrep, List.flatten_cons, List.take_append_eq_append_take]
        congr 1
        · exact (List.take_of_length_le (by omega)).symm
        · rw [hP]
          rw [show r - 1 = (r - 45) + 44 by omega]
          rw [take_flatten_replicate test_pattern 44 (r - 45) (r - 45)
            (by rw [hP]; omega)]
      · rw [if_neg h0, if_neg h45]
        rw [hrep, List.flatten_cons, List.take_append_of_le_length (by omega)]

/-- C6: the synthetic buffer has exactly the requested number of bytes and
is the fixed 45 byte pattern repeated and truncated, and the benchmark
comparison hands the identical buffer to both timed algorithms. Determinism
is immediate since generate_test_data is a pure function of its size
argument. -/
theorem c6_generate_test_data (size : Nat) :
    (generate_test_data size).length = size ∧
    generate_test_data size = repeated_truncated test_pattern size ∧
    test_performance_inputs.1 = test_performance_inputs.2 := by
  refine ⟨?_, ?_, rfl⟩
  · rw [generate_test_data, gen_fill_eq, List.length_take]
    have hlen : ((List.replicate size test_pattern).flatten).length
        = size * 45 := by
      simp [List.length_flatten, List.map_replicate, List.sum_replicate,
        test_pattern_length, smul_eq_mul]
    rw [hlen]
    omega
  · rw [generate_test_data, gen_fill_eq]
    rfl

/-- C7: every clap failure that is neither a help nor a version display is
surfaced by parse_args as an InvalidArguments error carrying the rendered
clap message, so the command aborts instead of proceeding. -/
theorem c7_parse_args_invalid (e : ClapError)
    (h1 : e.kind ≠ ClapErrorKind.DisplayHelp)
    (h2 : e.kind ≠ ClapErrorKind.DisplayVersion) :
    parse_args (.error e) = .err (.InvalidArguments e.rendered) := by
  simp [parse_args, h1, h2]

/-- C7 witness: an unknown-argument clap failure becomes the
InvalidArguments error with the same rendered message. -/
theorem c7_witness :
    parse_args (.error ⟨ClapErrorKind.UnknownArgument,
      "error: unexpected argument \x27--frobnicate\x27"⟩) =
      .err (.InvalidArguments
        "error: unexpected argument \x27--frobnicate\x27") :=
  c7_parse_args_invalid _ (by decide) (by decide)

/-- Helper: in an association list with nodup keys, every member pair is
found by lookup. -/
theorem lookup_some_of_mem {l : List (String × String)} {p d : String}
    (hnd : (l.map Prod.fst).Nodup) (hm : (p, d) ∈ l) :
    l.lookup p = some d := by
  induction l with
  | nil => simp at hm
  | cons head tail ih =>
    obtain ⟨k, b⟩ := head
    simp only [List.map_cons, List.nodup_cons] at hnd
    rcases List.mem_cons.mp hm with heq | hmem
    · cases heq
      simp [List.lookup]
    · by_cases hpk : p = k
      · subst hpk
        exact absurd (List.mem_map_of_mem Prod.fst hmem) hnd.1
      · have hbeq : (p == k) = false := by simp [hpk]
        simp only [List.lookup, hbeq]
        exact ih hnd.2 hmem

/-- Helper: lookup success implies membership of the found pair. -/
theorem mem_of_lookup_some {l : List (String × String)} {p d : String}
    (h : l.lookup p = some d) : (p, d) ∈ l := by
  induction l with
  | nil => simp [List.lookup] at h
  | cons head tail ih =>
    obtain ⟨k, b⟩ := head
    by_cases hpk : p = k
    · subst hpk
      simp [List.lookup] at h
      simp [h]
    · have hbeq : (p == k) = false := by simp [hpk]
      simp only [List.lookup, hbeq] at h
      exact List.mem_cons_of_mem _ (ih h)

/-- Helper: lookup fails exactly when the key is absent from the key
list. -/
theorem lookup_none_iff {l : List (String × String)} {p : String} :
    l.lookup p = none ↔ p ∉ l.map Prod.fst := by
  induction l with
  | nil => simp [List.lookup]
  | cons head tail ih =>
    obtain ⟨k, b⟩ := head
    by_cases hpk : p = k
    · subst hpk
      simp [List.lookup]
    · have hbeq : (p == k) = false := by simp [hpk]
      simp [List.lookup, hbeq, hpk, ih]

/-- Helper: key membership is lookup success. -/
theorem mem_keys_iff_lookup {l : List (String × String)} {p : String} :
    p ∈ l.map Prod.fst ↔ ∃ d, l.lookup p = some d := by
  constructor
  · intro hp
    cases hl : l.lookup p with
    | none => exact absurd hp (lookup_none_iff.mp hl)
    | some d => exact ⟨d, rfl⟩
  · rintro ⟨d, hd⟩
    by_contra hp
    rw [lookup_none_iff.mpr hp] at hd
    exact Option.noConfusion hd

/-- Helper: membership in the unchanged set of a report. -/
theorem mem_unchanged_iff {db disk : List (String × String)} {p : String}
    (hdb : (db.map Prod.fst).Nodup) :
    p ∈ (verify db disk).unchanged ↔
      ∃ d, db.lookup p = some d ∧ disk.lookup p = some d := by
  simp only [verify, List.mem_map, List.mem_filter]
  constructor
  · rintro ⟨⟨q, d⟩, ⟨hmem, hcond⟩, hq⟩
    dsimp at hq hcond
    subst hq
    exact ⟨d, lookup_some_of_mem hdb hmem, eq_of_beq hcond⟩
  · rintro ⟨d, hdb1, hdisk1⟩
    exact ⟨(p, d), ⟨mem_of_lookup_some hdb1, by simp [hdisk1]⟩, rfl⟩

/-- Helper: membership in the modified set of a report. -/
theorem mem_modified_iff {db disk : List (String × String)} {p : String}
    (hdb : (db.map Prod.fst).Nodup) :
    p ∈ (verify db disk).modified ↔
      ∃ d d2, db.lookup p = some d ∧ disk.lookup p = some d2 ∧ d2 ≠ d := by
  simp only [verify, List.mem_map, List.mem_filter]
  constructor
  · rintro ⟨⟨q, d⟩, ⟨hmem, hcond⟩, hq⟩
    dsimp at hq hcond
    subst hq
    rw [Bool.and_eq_true] at hcond
    obtain ⟨hsome, hne⟩ := hcond
    obtain ⟨d2, hd2⟩ := Option.isSome_iff_exists.mp hsome
    refine ⟨d, d2, lookup_some_of_mem hdb hmem, hd2, ?_⟩
    intro hcontra
    rw [hd2, hcontra] at hne
    simp at hne
  · rintro ⟨d, d2, hdb1, hdisk1, hne⟩
    refine ⟨(p, d), ⟨mem_of_lookup_some hdb1, ?_⟩, rfl⟩
    dsimp
    rw [hdisk1]
    simp [hne]

/-- Helper: membership in the missing set of a report. -/
theorem mem_missing_iff {db disk : List (String × String)} {p : String} :
    p ∈ (verify db disk).missing ↔
      p ∈ db.map Prod.fst ∧ disk.lookup p = none := by
  simp only [verify, List.mem_map, List.mem_filter]
  constructor
  · rintro ⟨⟨q, d⟩, ⟨hmem, hcond⟩, hq⟩
    dsimp at hq hcond
    subst hq
    exact ⟨⟨(q, d), hmem, rfl⟩, Option.isNone_iff_eq_none.mp hcond⟩
  · rintro ⟨hmem, hnone⟩
    obtain ⟨⟨q, d⟩, hqd, hq⟩ := hmem
    dsimp at hq
    subst hq
    exact ⟨(q, d), ⟨hqd, by dsimp; simp [hnone]⟩, rfl⟩

/-- Helper: membership in the new set of a report. -/
theorem mem_new_iff {db disk : List (String × String)} {p : String} :
    p ∈ (verify db disk).new ↔
      p ∈ disk.map Prod.fst ∧ db.lookup p = none := by
  simp only [verify, List.mem_map, List.mem_filter]
  constructor
  · rintro ⟨⟨q, d⟩, ⟨hmem, hcond⟩, hq⟩
    dsimp at hq hcond
    subst hq
    exact ⟨⟨(q, d), hmem, rfl⟩, Option.isNone_iff_eq_none.mp hcond⟩
  · rintro ⟨hmem, hnone⟩
    obtain ⟨⟨q, d⟩, hqd, hq⟩ := hmem
    dsimp at hq
    subst hq
    exact ⟨(q, d), ⟨hqd, by dsimp; simp [hnone]⟩, rfl⟩

/-- C4: for every database and directory with unique paths, the four report
sets are pairwise disjoint, the database paths are exactly the unchanged,
modified and missing paths, and the directory paths are exactly the
unchanged, modified and new paths. -/
theorem c4_verification_partition (db disk : List (String × String))
    (hdb : (db.map Prod.fst).Nodup) :
    ((verify db disk).unchanged.Disjoint (verify db disk).modified ∧
     (verify db disk).unchanged.Disjoint (verify db disk).missing ∧
     (verify db disk).unchanged.Disjoint (verify db disk).new ∧
     (verify db disk).modified.Disjoint (verify db disk).missing ∧
     (verify db disk).modified.Disjoint (verify db disk).new ∧
     (verify db disk).missing.Disjoint (verify db disk).new) ∧
    (∀ p, (p ∈ (verify db disk).unchanged ∨ p ∈ (verify db disk).modified ∨
        p ∈ (verify db disk).missing) ↔ p ∈ db.map Prod.fst) ∧
    (∀ p, (p ∈ (verify db disk).unchanged ∨ p ∈ (verify db disk).modified ∨
        p ∈ (verify db disk).new) ↔ p ∈ disk.map Prod.fst) := by
  refine ⟨⟨?_, ?_, ?_, ?_, ?_, ?_⟩, ?_, ?_⟩
  · intro p h1 h2
    obtain ⟨d, hdb1, hdisk1⟩ := (mem_unchanged_iff hdb).mp h1
    obtain ⟨d1, d2, hdb2, hdisk2, hne⟩ := (mem_modified_iff hdb).mp h2
    rw [hdb1] at hdb2
    rw [hdisk1] at hdisk2
    obtain rfl := Option.some.inj hdb2
    obtain rfl := Option.some.inj hdisk2
    exact hne rfl
  · intro p h1 h2
    obtain ⟨d, _, hdisk1⟩ := (mem_unchanged_iff hdb).mp h1
    obtain ⟨_, hnone⟩ := mem_missing_iff.mp h2
    rw [hnone] at hdisk1
    exact Option.noConfusion hdisk1
  · intro p h1 h2
    obtain ⟨d, hdb1, _⟩ := (mem_unchanged_iff hdb).mp h1
    obtain ⟨_, hnone⟩ := mem_new_iff.mp h2
    rw [hnone] at hdb1
    exact Option.noConfusion hdb1
  · intro p h1 h2
    obtain ⟨d, d2, _, hdisk1, _⟩ := (mem_modified_iff hdb).mp h1
    obtain ⟨_, hnone⟩ := mem_missing_iff.mp h2
    rw [hnone] at hdisk1
    exact Option.noConfusion hdisk1
  · intro p h1 h2
    obtain ⟨d, d2, hdb1, _, _⟩ := (mem_modified_iff hdb).mp h1
    obtain ⟨_, hnone⟩ := mem_new_iff.mp h2
    rw [hnone] at hdb1
    exact Option.noConfusion hdb1
  · intro p h1 h2
    obtain ⟨hkeys, _⟩ := mem_missing_iff.mp h1
    obtain ⟨_, hnone⟩ := mem_new_iff.mp h2
    exact absurd hkeys (lookup_none_iff.mp hnone)
  · intro p
    constructor
    · rintro (h | h | h)
      · obtain ⟨d, hdb1, _⟩ := (mem_unchanged_iff hdb).mp h
        exact mem_keys_iff_lookup.mpr ⟨d, hdb1⟩
      · obtain ⟨d, d2, hdb1, _, _⟩ := (mem_modified_iff hdb).mp h
        exact mem_keys_iff_lookup.mpr ⟨d, hdb1⟩
      · exact (mem_missing_iff.mp h).1
    · intro hp
      obtain ⟨d, hd⟩ := mem_keys_iff_lookup.mp hp
      cases hl : disk.lookup p with
      | none => exact Or.inr (Or.inr (mem_missing_iff.mpr ⟨hp, hl⟩))
      | some d2 =>
        by_cases hde : d2 = d
        · exact Or.inl ((mem_unchanged_iff hdb).mpr
            ⟨d, hd, by rw [hl, hde]⟩)
        · exact Or.inr (Or.inl ((mem_modified_iff hdb).mpr
            ⟨d, d2, hd, hl, hde⟩))
  · intro p
    constructor
    · rintro (h | h | h)
      · obtain ⟨d, _, hdisk1⟩ := (mem_unchanged_iff hdb).mp h
        exact mem_keys_iff_lookup.mpr ⟨d, hdisk1⟩
      · obtain ⟨d, d2, _, hdisk1, _⟩ := (mem_modified_iff hdb).mp h
        exact mem_keys_iff_lookup.mpr ⟨d2, hdisk1⟩
      · exact (mem_new_iff.mp h).1
    · intro hp
      obtain ⟨d2, hd2⟩ := mem_keys_iff_lookup.mp hp
      cases hl : db.lookup p with
      | none => exact Or.inr (Or.inr (mem_new_iff.mpr ⟨hp, hl⟩))
      | some d =>
        by_cases hde : d2 = d
        · exact Or.inl ((mem_unchanged_iff hdb).mpr
            ⟨d, hl, by rw [hd2, hde]⟩)
        · exact Or.inr (Or.inl ((mem_modified_iff hdb).mpr
            ⟨d, d2, hl, hd2, hde⟩))

/-- C4 witness: the partition statement applied to a concrete database and
directory pair with unique paths. -/
theorem c4_witness :
    (("b.txt" ∈ (verify db_example disk_example).unchanged ∨
      "b.txt" ∈ (verify db_example disk_example).modified ∨
      "b.txt" ∈ (verify db_example disk_example).missing) ↔
      "b.txt" ∈ db_example.map Prod.fst) ∧
    (("d.txt" ∈ (verify db_example disk_example).unchanged ∨
      "d.txt" ∈ (verify db_example disk_example).modified ∨
      "d.txt" ∈ (verify db_example disk_example).new) ↔
      "d.txt" ∈ disk_example.map Prod.fst) ∧
    (verify db_example disk_example).missing.Disjoint
      (verify db_example disk_example).new :=
  ⟨(c4_verification_partition db_example disk_example
      (by decide)).2.1 "b.txt",
   (c4_verification_partition db_example disk_example
      (by decide)).2.2 "d.txt",
   (c4_verification_partition db_example disk_example
      (by decide)).1.2.2.2.2.2⟩

/-- Helper: the hash flag loop leaves the algorithm list untouched when no
algorithm flag occurs, and the fast flag untouched when no fast flag
occurs. -/
theorem parse_hash_args_defaults (l : List String) (acc : HashArgs) :
    ∀ acc', parse_hash_args l acc = .ok acc' →
      (("-a" ∉ l ∧ "--algorithm" ∉ l) → acc'.algorithms = acc.algorithms) ∧
      (("-F" ∉ l ∧ "--fast" ∉ l) → acc'.fast = acc.fast) := by
  induction l, acc using parse_hash_args.induct with
  | case1 acc =>
    intro acc' h
    rw [parse_hash_args.eq_def] at h
    simp only [Except.ok.injEq] at h
    subst h
    exact ⟨fun _ => rfl, fun _ => rfl⟩
  | case2 arg rest acc h1 ih =>
    intro acc' h
    rw [parse_hash_args.eq_def] at h
    simp only [if_pos h1] at h
    obtain ⟨ihA, ihF⟩ := ih acc' h
    constructor
    · rintro ⟨ha, hal⟩
      rw [ihA ⟨List.not_mem_of_not_mem_cons ha,
        List.not_mem_of_not_mem_cons hal⟩]
    · rintro ⟨hF, hf⟩
      rcases h1 with rfl | rfl
      · exact absurd (List.mem_cons_self _ _) hF
      · exact absurd (List.mem_cons_self _ _) hf
  | case3 arg acc h1 h2 =>
    intro acc' h
    rw [parse_hash_args.eq_def] at h
    simp only [if_neg h1, if_pos h2] at h
    exact Except.noConfusion h
  | case4 arg acc h1 h2 v rest2 ih =>
    intro acc' h
    rw [parse_hash_args.eq_def] at h
    simp only [if_neg h1, if_pos h2] at h
    obtain ⟨ihA, ihF⟩ := ih acc' h
    constructor
    · rintro ⟨ha, hal⟩
      rw [ihA ⟨List.not_mem_of_not_mem_cons (List.not_mem_of_not_mem_cons ha),
        List.not_mem_of_not_mem_cons (List.not_mem_of_not_mem_cons hal)⟩]
    · rintro ⟨hF, hf⟩
      rw [ihF ⟨List.not_mem_of_not_mem_cons (List.not_mem_of_not_mem_cons hF),
        List.not_mem_of_not_mem_cons (List.not_mem_of_not_mem_cons hf)⟩]
  | case5 arg acc h1 h2 h3 =>
    intro acc' h
    rw [parse_hash_args.eq_def] at h
    simp only [if_neg h1, if_neg h2, if_pos h3] at h
    exact Except.noConfusion h
  | case6 arg acc h1 h2 h3 v rest2 ih =>
    intro acc' h
    rw [parse_hash_args.eq_def] at h
    simp only [if_neg h1, if_neg h2, if_pos h3] at h
    obtain ⟨ihA, ihF⟩ := ih acc' h
    constructor
    · rintro ⟨ha, hal⟩
      rcases h3 with rfl | rfl
      · exact absurd (List.mem_cons_self _ _) ha
      · exact absurd (List.mem_cons_self _ _) hal
    · rintro ⟨hF, hf⟩
      rw [ihF ⟨List.not_mem_of_not_mem_cons (List.not_mem_of_not_mem_cons hF),
        List.not_mem_of_not_mem_cons (List.not_mem_of_not_mem_cons hf)⟩]
  | case7 arg acc h1 h2 h3 h4 =>
    intro acc' h
    rw [parse_hash_args.eq_def] at h
    simp only [if_neg h1, if_neg h2, if_neg h3, if_pos h4] at h
    exact Except.noConfusion h
  | case8 arg acc h1 h2 h3 h4 v rest2 ih =>
    intro acc' h
    rw [parse_hash_args.eq_def] at h
    simp only [if_neg h1, if_neg h2, if_neg h3, if_pos h4] at h
    obtain ⟨ihA, ihF⟩ := ih acc' h
    constructor
    · rintro ⟨ha, hal⟩
      rw [ihA ⟨List.not_mem_of_not_mem_cons (List.not_mem_of_not_mem_cons ha),
        List.not_mem_of_not_mem_cons (List.not_mem_of_not_mem_cons hal)⟩]
    · rintro ⟨hF, hf⟩
      rw [ihF ⟨List.not_mem_of_not_mem_cons (List.not_mem_of_not_mem_cons hF),
        List.not_mem_of_not_mem_cons (List.not_mem_of_not_mem_cons hf)⟩]
  | case9 arg rest acc h1 h2 h3 h4 =>
    intro acc' h
    rw [parse_hash_args.eq_def] at h
    simp only [if_neg h1, if_neg h2, if_neg h3, if_neg h4] at h
    exact Except.noConfusion h

/-- Helper: the scan flag loop leaves the algorithm, parallel and fast
fields untouched when the corresponding flags do not occur. -/
theorem parse_scan_args_defaults (l : List String) (acc : ScanArgs) :
    ∀ acc', parse_scan_args l acc = .ok acc' →
      (("-a" ∉ l ∧ "--algorithm" ∉ l) → acc'.algorithm = acc.algorithm) ∧
      (("-p" ∉ l ∧ "--parallel" ∉ l) → acc'.parallel = acc.parallel) ∧
      (("-F" ∉ l ∧ "--fast" ∉ l) → acc'.fast = acc.fast) := by
  induction l, acc using parse_scan_args.induct with
  | case1 acc =>
    intro acc' h
    rw [parse_scan_args.eq_def] at h
    simp only [Except.ok.injEq] at h
    subst h
    exact ⟨fun _ => rfl, fun _ => rfl, fun _ => rfl⟩
  | case2 arg rest acc h1 ih =>
    intro acc' h
    rw [parse_scan_args.eq_def] at h
    simp only [if_pos h1] at h
    obtain ⟨ihA, ihP, ihF⟩ := ih acc' h
    refine ⟨?_, ?_, ?_⟩
    · rintro ⟨ha, hal⟩
      rw [ihA ⟨List.not_mem_of_not_mem_cons ha,
        List.not_mem_of_not_mem_cons hal⟩]
    · rintro ⟨hp, hpl⟩
      rcases h1 with rfl | rfl
      · exact absurd (List.mem_cons_self _ _) hp
      · exact absurd (List.mem_cons_self _ _) hpl
    · rintro ⟨hF, hf⟩
      rw [ihF ⟨List.not_mem_of_not_mem_cons hF,
        List.not_mem_of_not_mem_cons hf⟩]
  | case3 arg rest acc h1 h2 ih =>
    intro acc' h
    rw [parse_scan_args.eq_def] at h
    simp only [if_neg h1, if_pos h2] at h
    obtain ⟨ihA, ihP, ihF⟩ := ih acc' h
    refine ⟨?_, ?_, ?_⟩
    · rintro ⟨ha, hal⟩
      rw [ihA ⟨List.not_mem_of_not_mem_cons ha,
        List.not_mem_of_not_mem_cons hal⟩]
    · rintro ⟨hp, hpl⟩
      rw [ihP ⟨List.not_mem_of_not_mem_cons hp,
        List.not_mem_of_not_mem_cons hpl⟩]
    · rintro ⟨hF, hf⟩
      rcases h2 with rfl | rfl
      · exact absurd (List.mem_cons_self _ _) hF
      · exact absurd (List.mem_cons_self _ _) hf
  | case4 arg acc h1 h2 h3 =>
    intro acc' h
    rw [parse_scan_args.eq_def] at h
    simp only [if_neg h1, if_neg h2, if_pos h3] at h
    exact Except.noConfusion h
  | case5 arg acc h1 h2 h3 v rest2 ih =>
    intro acc' h
    rw [parse_scan_args.eq_def] at h
    simp only [if_neg h1, if_neg h2, if_pos h3] at h
    obtain ⟨ihA, ihP, ihF⟩ := ih acc' h
    refine ⟨?_, ?_, ?_⟩
    · rintro ⟨ha, hal⟩
      rw [ihA ⟨List.not_mem_of_not_mem_cons (List.not_mem_of_not_mem_cons ha),
        List.not_mem_of_not_mem_cons (List.not_mem_of_not_mem_cons hal)⟩]
    · rintro ⟨hp, hpl⟩
      rw [ihP ⟨List.not_mem_of_not_mem_cons (List.not_mem_of_not_mem_cons hp),
        List.not_mem_of_not_mem_cons (List.not_mem_of_not_mem_cons hpl)⟩]
    · rintro ⟨hF, hf⟩
      rw [ihF ⟨List.not_mem_of_not_mem_cons (List.not_mem_of_not_mem_cons hF),
        List.not_mem_of_not_mem_cons (List.not_mem_of_not_mem_cons hf)⟩]
  | case6 arg acc h1 h2 h3 h4 =>
    intro acc' h
    rw [parse_scan_args.eq_def] at h
    simp only [if_neg h1, if_neg h2, if_neg h3, if_pos h4] at h
    exact Except.noConfusion h
  | case7 arg acc h1 h2 h3 h4 v rest2 ih =>
    intro acc' h
    rw [parse_scan_args.eq_def] at h
    simp only [if_neg h1, if_neg h2, if_neg h3, if_pos h4] at h
    obtain ⟨ihA, ihP, ihF⟩ := ih acc' h
    refine ⟨?_, ?_, ?_⟩
    · rintro ⟨ha, hal⟩
      rcases h4 with rfl | rfl
      · exact absurd (List.mem_cons_self _ _) ha
      · exact absurd (List.mem_cons_self _ _) hal
    · rintro ⟨hp, hpl⟩
      rw [ihP ⟨List.not_mem_of_not_mem_cons (List.not_mem_of_not_mem_cons hp),
        List.not_mem_of_not_mem_cons (List.not_mem_of_not_mem_cons hpl)⟩]
    · rintro ⟨hF, hf⟩
      rw [ihF ⟨List.not_mem_of_not_mem_cons (List.not_mem_of_not_mem_cons hF),
        List.not_mem_of_not_mem_cons (List.not_mem_of_not_mem_cons hf)⟩]
  | case8 arg acc h1 h2 h3 h4 h5 =>
    intro acc' h
    rw [parse_scan_args.eq_def] at h
    simp only [if_neg h1, if_neg h2, if_neg h3, if_neg h4, if_pos h5] at h
    exact Except.noConfusion h
  | case9 arg acc h1 h2 h3 h4 h5 v rest2 ih =>
    intro acc' h
    rw [parse_scan_args.eq_def] at h
    simp only [if_neg h1, if_neg h2, if_neg h3, if_neg h4, if_pos h5] at h
    obtain ⟨ihA, ihP, ihF⟩ := ih acc' h
    refine ⟨?_, ?_, ?_⟩
    · rintro ⟨ha, hal⟩
      rw [ihA ⟨List.not_mem_of_not_mem_cons (List.not_mem_of_not_mem_cons ha),
        List.not_mem_of_not_mem_cons (List.not_mem_of_not_mem_cons hal)⟩]
    · rintro ⟨hp, hpl⟩
      rw [ihP ⟨List.not_mem_of_not_mem_cons (List.not_mem_of_not_mem_cons hp),
        List.not_mem_of_not_mem_cons (List.not_mem_of_not_mem_cons hpl)⟩]
    · rintro ⟨hF, hf⟩
      rw [ihF ⟨List.not_mem_of_not_mem_cons (List.not_mem_of_not_mem_cons hF),
        List.not_mem_of_not_mem_cons (List.not_mem_of_not_mem_cons hf)⟩]
  | case10 arg rest acc h1 h2 h3 h4 h5 =>
    intro acc' h
    rw [parse_scan_args.eq_def] at h
    simp only [if_neg h1, if_neg h2, if_neg h3, if_neg h4, if_neg h5] at h
    exact Except.noConfusion h

/-- Helper: the benchmark flag loop leaves the size field untouched when no
size flag occurs. -/
theorem parse_benchmark_args_defaults (l : List String) (acc : BenchmarkArgs) :
    ∀ acc', parse_benchmark_args l acc = .ok acc' →
      (("-s" ∉ l ∧ "--size" ∉ l) → acc'.size_mb = acc.size_mb) := by
  induction l, acc using parse_benchmark_args.induct with
  | case1 acc =>
    intro acc' h
    rw [parse_benchmark_args.eq_def] at h
    simp only [Except.ok.injEq] at h
    subst h
    exact fun _ => rfl
  | case2 arg acc h1 =>
    intro acc' h
    rw [parse_benchmark_args.eq_def] at h
    simp only [if_pos h1] at h
    exact Except.noConfusion h
  | case3 arg acc h1 v rest2 n htn ih =>
    intro acc' h
    rintro ⟨hs, hsl⟩
    rcases h1 with rfl | rfl
    · exact absurd (List.mem_cons_self _ _) hs
    · exact absurd (List.mem_cons_self _ _) hsl
  | case4 arg acc h1 v rest2 htn =>
    intro acc' h
    rw [parse_benchmark_args.eq_def] at h
    simp only [if_pos h1, htn] at h
    exact Except.noConfusion h
  | case5 arg rest acc h1 =>
    intro acc' h
    rw [parse_benchmark_args.eq_def] at h
    simp only [if_neg h1] at h
    exact Except.noConfusion h

/-- C10: on every command line that parses successfully and carries none of
the algorithm, fast, parallel or size flags, the parsed hash and scan
commands default the algorithm to sha256, the fast and parallel flags to
false, and the parsed benchmark command defaults the size to 100 MB. -/
theorem c10_cli_defaults (args : List String) (cli : Cli)
    (h : parse_argv args = .ok cli)
    (ha : "-a" ∉ args) (hal : "--algorithm" ∉ args)
    (hF : "-F" ∉ args) (hf : "--fast" ∉ args)
    (hp : "-p" ∉ args) (hpl : "--parallel" ∉ args)
    (hs : "-s" ∉ args) (hsl : "--size" ∉ args) :
    (∀ file algs out fast, cli.command = Command.Hash file algs out fast →
      algs = ["sha256"] ∧ fast = false) ∧
    (∀ dir alg out par fast,
      cli.command = Command.Scan dir alg out par fast →
      alg = "sha256" ∧ par = false ∧ fast = false) ∧
    (∀ n, cli.command = Command.Benchmark n → n = 100) := by
  cases args with
  | nil => simp [parse_argv] at h
  | cons cmd rest =>
    have ha2 := List.not_mem_of_not_mem_cons ha
    have hal2 := List.not_mem_of_not_mem_cons hal
    have hF2 := List.not_mem_of_not_mem_cons hF
    have hf2 := List.not_mem_of_not_mem_cons hf
    have hp2 := List.not_mem_of_not_mem_cons hp
    have hpl2 := List.not_mem_of_not_mem_cons hpl
    have hs2 := List.not_mem_of_not_mem_cons hs
    have hsl2 := List.not_mem_of_not_mem_cons hsl
    simp only [parse_argv] at h
    by_cases hcmd1 : cmd = "hash"
    · rw [if_pos hcmd1] at h
      cases hph : parse_hash_args rest {} with
      | error e => rw [hph] at h; simp [Except.bind] at h
      | ok acc =>
        rw [hph] at h
        simp only [Except.bind] at h
        cases hfile : acc.file with
        | none => simp [finish_hash, hfile, Except.map] at h
        | some f =>
          simp only [finish_hash, hfile, Except.map, Except.ok.injEq] at h
          subst h
          obtain ⟨dA, dF⟩ := parse_hash_args_defaults rest {} acc hph
          have hAlg : acc.algorithms = [] := dA ⟨ha2, hal2⟩
          have hFast : acc.fast = false := dF ⟨hF2, hf2⟩
          refine ⟨?_, ?_, ?_⟩
          · intro f2 algs2 out2 fast2 heq
            simp only [Command.Hash.injEq] at heq
            obtain ⟨-, halgs, -, hfast⟩ := heq
            constructor
            · rw [← halgs, hAlg]
              rfl
            · rw [← hfast, hFast]
          · intro d2 a2 o2 p2 f3 heq
            simp at heq
          · intro n heq
            simp at heq
    · rw [if_neg hcmd1] at h
      by_cases hcmd2 : cmd = "scan"
      · rw [if_pos hcmd2] at h
        cases hps : parse_scan_args rest {} with
        | error e => rw [hps] at h; simp [Except.bind] at h
        | ok acc =>
          rw [hps] at h
          simp only [Except.bind] at h
          cases hdir : acc.directory with
          | none => simp [finish_scan, hdir, Except.map] at h
          | some d =>
            cases hout : acc.output with
            | none => simp [finish_scan, hdir, hout, Except.map] at h
            | some o =>
              simp only [finish_scan, hdir, hout, Except.map,
                Except.ok.injEq] at h
              subst h
              obtain ⟨dA, dP, dF⟩ := parse_scan_args_defaults rest {} acc hps
              have hAlg : acc.algorithm = none := dA ⟨ha2, hal2⟩
              have hPar : acc.parallel = false := dP ⟨hp2, hpl2⟩
              have hFast : acc.fast = false := dF ⟨hF2, hf2⟩
              refine ⟨?_, ?_, ?_⟩
              · intro f2 algs2 out2 fast2 heq
                simp at heq
              · intro d2 a2 o2 p2 f3 heq
                simp only [Command.Scan.injEq] at heq
                obtain ⟨-, halg, -, hpar, hfast⟩ := heq
                refine ⟨?_, ?_, ?_⟩
                · rw [← halg, hAlg]
                  rfl
                · rw [← hpar, hPar]
                · rw [← hfast, hFast]
              · intro n heq
                simp at heq
      · rw [if_neg hcmd2] at h
        by_cases hcmd3 : cmd = "verify"
        · rw [if_pos hcmd3] at h
          cases hpv : parse_verify_args rest {} with
          | error e => rw [hpv] at h; simp [Except.bind] at h
          | ok acc =>
            rw [hpv] at h
            simp only [Except.bind] at h
            cases hb : acc.database with
            | none => simp [finish_verify, hb, Except.map] at h
            | some b =>
              cases hd : acc.directory with
              | none => simp [finish_verify, hb, hd, Except.map] at h
              | some d =>
                simp only [finish_verify, hb, hd, Except.map,
                  Except.ok.injEq] at h
                subst h
                refine ⟨fun _ _ _ _ heq => absurd heq (by simp),
                  fun _ _ _ _ _ heq => absurd heq (by simp),
                  fun _ heq => absurd heq (by simp)⟩
        · rw [if_neg hcmd3] at h
          by_cases hcmd4 : cmd = "benchmark"
          · rw [if_pos hcmd4] at h
            cases hpb : parse_benchmark_args rest {} with
            | error e => rw [hpb] at h; simp [Except.bind] at h
            | ok acc =>
              rw [hpb] at h
              simp only [Except.bind, finish_benchmark, Except.map,
                Except.ok.injEq] at h
              subst h
              have hsz : acc.size_mb = none :=
                parse_benchmark_args_defaults rest {} acc hpb ⟨hs2, hsl2⟩
              refine ⟨?_, ?_, ?_⟩
              · intro f2 algs2 out2 fast2 heq
                simp at heq
              · intro d2 a2 o2 p2 f3 heq
                simp at heq
              · intro n heq
                simp only [Command.Benchmark.injEq] at heq
                rw [← heq, hsz]
                rfl
          · rw [if_neg hcmd4] at h
            by_cases hcmd5 : cmd = "list"
            · rw [if_pos hcmd5] at h
              cases rest with
              | nil =>
                simp only [Except.ok.injEq] at h
                subst h
                refine ⟨fun _ _ _ _ heq => absurd heq (by simp),
                  fun _ _ _ _ _ heq => absurd heq (by simp),
                  fun _ heq => absurd heq (by simp)⟩
              | cons a t => simp at h
            · rw [if_neg hcmd5] at h
              simp at h

/-- C10 witness: the minimal command line of the hash subcommand parses
successfully with no algorithm or fast flag present, and the theorem applied
to it yields the sha256 and false defaults of the parsed command. -/
theorem c10_witness :
    (["sha256"] : List String) = ["sha256"] ∧ (false : Bool) = false :=
  (c10_cli_defaults ["hash", "-f", "t.txt"]
    (Cli.mk (Command.Hash "t.txt" ["sha256"] none false)) (by rfl)
    (by decide) (by decide) (by decide) (by decide)
    (by decide) (by decide) (by decide) (by decide)).1
    "t.txt" ["sha256"] none false rfl

end HashRs
